import Mathlib

/-!
Shallow embedding of `src/accmt/collate_fns.py`: the three data collators
(`DataCollatorForSeq2Seq`, `DataCollatorForLongestSequence`,
`DataCollatorForLanguageModeling`) and the properties of the specification
that concern them.

Token ids are modelled as `Int` (label fills such as `-100` are negative).
Python exceptions are modelled with `Except CollateError`.  The stochastic
draws of the language-modeling collator are modelled by an explicit random
source: a rational-valued uniform sample per (example, draw stage, position)
for the Bernoulli trials (`torch.bernoulli p` succeeds iff the uniform
sample is `< p`) and an integer sample per (example, position) for
`torch.randint`.
-/

/-- Padding side of the tokenizer (`tokenizer.padding_side`). -/
inductive PadSide where
  | left
  | right
deriving DecidableEq

/-- Errors raised by the Python code: `max()` on an empty sequence
(`ValueError`), `np.stack`/`torch.stack` on an empty or ragged list
(`ValueError`/`RuntimeError`), a local variable referenced before
assignment (`UnboundLocalError`), and a tensor shape mismatch. -/
inductive CollateError where
  | emptyMax
  | emptyStack
  | stackMismatch
  | unboundLocal
  | shapeMismatch
deriving DecidableEq

/-- `np.stack` / `torch.stack` on a list of rows: fails on an empty list and
when the rows disagree in length; otherwise returns the rows unchanged. -/
def stackE (rows : List (List Int)) : Except CollateError (List (List Int)) :=
  match rows with
  | [] => .error .emptyStack
  | r :: rs => if rs.all (fun s => s.length == r.length) then .ok (r :: rs) else .error .stackMismatch

/-- Whether a Python value is a plain `list` (versus a numpy array / tensor);
`DataCollatorForSeq2Seq.__call__` branches on `isinstance(feature["labels"], list)`. -/
inductive LabelsKind where
  | pylist
  | ndarray
deriving DecidableEq

/-- One example for `DataCollatorForSeq2Seq`: the three required fields plus
the runtime kind of its `labels` value. -/
structure S2SExample where
  input_ids : List Int
  attention_mask : List Int
  labels : List Int
  labelsKind : LabelsKind
deriving DecidableEq

/-- Configuration of `DataCollatorForSeq2Seq` (from `__init__`): the
tokenizer's pad token id and padding side and the label pad token id. -/
structure S2SConfig where
  pad_token_id : Int
  label_pad_token_id : Int
  padding_side : PadSide
deriving DecidableEq

/-- `max(len(l) for l in labels)` (line 30); only consulted on non-empty batches. -/
def maxLabelLength (batch : List S2SExample) : Nat :=
  (batch.map (fun f => f.labels.length)).foldl max 0

/-- `max(len(l) for l in inputs)` (line 31); only consulted on non-empty batches. -/
def maxInputLength (batch : List S2SExample) : Nat :=
  (batch.map (fun f => f.input_ids.length)).foldl max 0

/-- The per-feature body of the second loop of `DataCollatorForSeq2Seq.__call__`
(lines 37-58): build the three remainders and concatenate, on the right when
`labels` is a Python list or the padding side is right, on the left otherwise. -/
def s2sPadFeature (cfg : S2SConfig) (maxInput maxLabel : Nat) (f : S2SExample) :
    List Int × List Int × List Int :=
  let inputsRemainder := List.replicate (maxInput - f.input_ids.length) cfg.pad_token_id
  let attnRemainder := List.replicate (maxInput - f.input_ids.length) (0 : Int)
  let labelsRemainder := List.replicate (maxLabel - f.labels.length) cfg.label_pad_token_id
  match f.labelsKind with
  | .pylist =>
    (f.input_ids ++ inputsRemainder, f.attention_mask ++ attnRemainder, f.labels ++ labelsRemainder)
  | .ndarray =>
    match cfg.padding_side with
    | .right =>
      (f.input_ids ++ inputsRemainder, f.attention_mask ++ attnRemainder, f.labels ++ labelsRemainder)
    | .left =>
      (inputsRemainder ++ f.input_ids, attnRemainder ++ f.attention_mask, labelsRemainder ++ f.labels)

/-- The stacked output of `DataCollatorForSeq2Seq.__call__` (lines 64-68). -/
structure S2SOutput where
  input_ids : List (List Int)
  attention_mask : List (List Int)
  labels : List (List Int)
deriving DecidableEq

/-- `DataCollatorForSeq2Seq.__call__` (lines 23-68): on an empty batch the
`max()` calls raise; otherwise pad every feature to the two planned lengths
and stack the three field families (`np.stack` of the inputs is evaluated
first, so its error wins). -/
def dataCollatorForSeq2Seq (cfg : S2SConfig) (batch : List S2SExample) :
    Except CollateError S2SOutput :=
  match batch with
  | [] => .error .emptyMax
  | _ =>
    let rows := batch.map (s2sPadFeature cfg (maxInputLength batch) (maxLabelLength batch))
    match stackE (rows.map (fun r => r.1)), stackE (rows.map (fun r => r.2.1)),
        stackE (rows.map (fun r => r.2.2)) with
    | .ok ids, .ok att, .ok labs => .ok ⟨ids, att, labs⟩
    | .error e, _, _ => .error e
    | .ok _, .error e, _ => .error e
    | .ok _, .ok _, .error e => .error e

/-- Fields of one example for `DataCollatorForLongestSequence`. -/
structure LSFields where
  input_ids : List Int
  attention_mask : List Int
deriving DecidableEq

/-- An example for `DataCollatorForLongestSequence`: either a plain mapping or
an `(inputs, targets)` tuple (line 79-80). -/
inductive LSExample where
  | plain (f : LSFields)
  | pair (f : LSFields) (target : List Int)
deriving DecidableEq

/-- The mapping part of an example (`feature[0]` when the example is a tuple). -/
def LSExample.fields : LSExample → LSFields
  | .plain f => f
  | .pair f _ => f

/-- Whether the example is the `(inputs, targets)` tuple variant. -/
def LSExample.isPair : LSExample → Bool
  | .plain _ => false
  | .pair _ _ => true

/-- Configuration of `DataCollatorForLongestSequence` (from `__init__`). -/
structure LSConfig where
  pad_token_id : Int
  padding_side : PadSide
deriving DecidableEq

/-- `max(len(l) for l in inputs)` (line 83); only consulted on non-empty batches. -/
def lsMaxInputLength (batch : List LSExample) : Nat :=
  (batch.map (fun e => e.fields.input_ids.length)).foldl max 0

/-- The per-feature body of the second loop of
`DataCollatorForLongestSequence.__call__` (lines 92-104). -/
def lsPadFeature (cfg : LSConfig) (maxInput : Nat) (f : LSFields) : List Int × List Int :=
  let inputsRemainder := List.replicate (maxInput - f.input_ids.length) cfg.pad_token_id
  let attnRemainder := List.replicate (maxInput - f.input_ids.length) (0 : Int)
  match cfg.padding_side with
  | .right => (f.input_ids ++ inputsRemainder, f.attention_mask ++ attnRemainder)
  | .left => (inputsRemainder ++ f.input_ids, attnRemainder ++ f.attention_mask)

/-- The targets collected in batch order from the tuple-variant examples
(the `labels.append(feature[1])` of line 90). -/
def lsTargets (batch : List LSExample) : List (List Int) :=
  batch.filterMap (fun e =>
    match e with
    | .plain _ => none
    | .pair _ t => some t)

/-- The stacked primary output of `DataCollatorForLongestSequence.__call__`. -/
structure LSOutput where
  input_ids : List (List Int)
  attention_mask : List (List Int)
deriving DecidableEq

/-- `DataCollatorForLongestSequence.__call__` (lines 76-117): pad both fields
to the single planned length, stack them, and return the stacked targets as a
second value exactly when at least one example was a tuple (line 114). -/
def dataCollatorForLongestSequence (cfg : LSConfig) (batch : List LSExample) :
    Except CollateError (LSOutput × Option (List (List Int))) :=
  match batch with
  | [] => .error .emptyMax
  | _ =>
    let rows := batch.map (fun e => lsPadFeature cfg (lsMaxInputLength batch) e.fields)
    match stackE (rows.map (fun r => r.1)), stackE (rows.map (fun r => r.2)) with
    | .ok ids, .ok att =>
      let labels := lsTargets batch
      if labels.length > 0 then
        match stackE labels with
        | .ok st => .ok (⟨ids, att⟩, some st)
        | .error e => .error e
      else
        .ok (⟨ids, att⟩, none)
    | .error e, _ => .error e
    | .ok _, .error e => .error e

/-- Fields of one example for `DataCollatorForLanguageModeling`; `labels` is
the optional entry the collator itself inserts, `special_tokens_mask` the
optional entry it pops. -/
structure LMFields where
  input_ids : List Int
  attention_mask : List Int
  special_tokens_mask : Option (List Int)
  labels : Option (List Int)
deriving DecidableEq

/-- An example for `DataCollatorForLanguageModeling`: a plain mapping or a
`(fields, second)` tuple whose second component is an auxiliary-target
mapping when it is a dict (lines 146-152); a non-dict second component is
ignored, modelled as `none`. -/
inductive LMExample where
  | plain (f : LMFields)
  | pair (f : LMFields) (second : Option (List (String × List Int)))
deriving DecidableEq

/-- The mapping the collator works on: `feature[0]` for a tuple, the feature
itself otherwise (the `_feature` of lines 146-152). -/
def LMExample.fields : LMExample → LMFields
  | .plain f => f
  | .pair f _ => f

/-- Replace the mapping part of an example, keeping its variant shape. -/
def LMExample.withFields : LMExample → LMFields → LMExample
  | .plain _, g => .plain g
  | .pair _ t, g => .pair g t

/-- The auxiliary-target dict of a tuple example, when present. -/
def LMExample.secondDict : LMExample → Option (List (String × List Int))
  | .plain _ => none
  | .pair _ t => t

/-- Configuration of `DataCollatorForLanguageModeling` (from `__init__`);
`masked_to_mask` is `none` when the configured value is not a float
(`isinstance(self.masked_to_mask, float)` fails, line 169). -/
structure LMConfig where
  mlm : Bool
  mlm_probability : ℚ
  ignore_index : Int
  masked_to_mask : Option ℚ
  apply_random_words : Bool
  keep_original_input : Bool

/-- The tokenizer capability used by `DataCollatorForLanguageModeling`:
pad token id, mask token id (`convert_tokens_to_ids(mask_token)`), vocabulary
size (`len(tokenizer)`) and the special-token detector
(`get_special_tokens_mask`). -/
structure MLMTokenizer where
  pad_token_id : Option Int
  mask_token_id : Int
  vocab_size : Nat
  special_mask : List Int → List Bool

/-- The special-tokens mask used for one example (lines 159-163): the popped
per-example mask converted to booleans when present, the tokenizer's detector
otherwise. -/
def lmSpecial (tok : MLMTokenizer) (stm : Option (List Int)) (inputs : List Int) : List Bool :=
  match stm with
  | some m => m.map (fun x => decide (x ≠ 0))
  | none => tok.special_mask inputs

/-- Whether the masked-token replacement branch is taken:
`isinstance(self.masked_to_mask, float) and self.masked_to_mask != 0.0` (line 169). -/
def mtmEnabled (cfg : LMConfig) : Bool :=
  match cfg.masked_to_mask with
  | some q => decide (q ≠ 0)
  | none => false

/-- One position of `masked_indices = torch.bernoulli(probability_matrix)`
(lines 158-166): the per-position probability is `mlm_probability`, zeroed at
special positions; `u s i` is the uniform sample of Bernoulli stage `s` at
position `i`. -/
def lmMaskedBit (cfg : LMConfig) (u : ℕ → ℕ → ℚ) (special : List Bool) (i : ℕ) : Bool :=
  decide (u 0 i < (if special.getD i false then (0 : ℚ) else cfg.mlm_probability))

/-- One position of `indices_replaced` (line 170). -/
def lmReplacedBit (cfg : LMConfig) (u : ℕ → ℕ → ℚ) (special : List Bool) (i : ℕ) : Bool :=
  decide (u 1 i < cfg.masked_to_mask.getD 0) && lmMaskedBit cfg u special i

/-- One position of `indices_random` (line 174). -/
def lmRandomBit (cfg : LMConfig) (u : ℕ → ℕ → ℚ) (special : List Bool) (i : ℕ) : Bool :=
  decide (u 2 i < mkRat 1 2) && lmMaskedBit cfg u special i && !lmReplacedBit cfg u special i

/-- The labels of the non-masking branch (lines 180-183): a clone of
`input_ids` with every position equal to the pad token id rewritten to the
literal `-100`, when the tokenizer has a pad token. -/
def lmNoMlmLabels (tok : MLMTokenizer) (inputs : List Int) : List Int :=
  match tok.pad_token_id with
  | some p => inputs.map (fun t => if t = p then (-100 : Int) else t)
  | none => inputs

/-- The per-feature body of `DataCollatorForLanguageModeling.__call__`
(lines 153-187) on the `_feature` mapping: returns the mutated mapping
(special-tokens entry popped, labels inserted, input ids corrupted in place)
together with the `inputs` and `labels` values appended to the batch lists.
`u` and `w` are this example's random samples. -/
def lmProcess1 (cfg : LMConfig) (tok : MLMTokenizer) (u : ℕ → ℕ → ℚ) (w : ℕ → Int)
    (f : LMFields) : Except CollateError (LMFields × List Int × List Int) :=
  let inputs := f.input_ids
  let n := inputs.length
  if cfg.mlm then
    let special := lmSpecial tok f.special_tokens_mask inputs
    if special.length = n then
      let labels : List Int := (List.range n).map (fun i =>
        if lmMaskedBit cfg u special i then inputs.getD i 0 else cfg.ignore_index)
      let inputs1 : List Int :=
        if mtmEnabled cfg then
          (List.range n).map (fun i =>
            if lmReplacedBit cfg u special i then tok.mask_token_id else inputs.getD i 0)
        else inputs
      let inputs2 : List Int :=
        if mtmEnabled cfg && cfg.apply_random_words then
          (List.range n).map (fun i =>
            if lmRandomBit cfg u special i then w i else inputs1.getD i 0)
        else inputs1
      .ok (⟨inputs2, f.attention_mask, none, some labels⟩, inputs2, labels)
    else .error .shapeMismatch
  else
    let labels := lmNoMlmLabels tok inputs
    .ok (⟨inputs, f.attention_mask, none, some labels⟩, inputs, labels)

/-- The per-batch lists accumulated by the loop of
`DataCollatorForLanguageModeling.__call__` (lines 138-142), plus the
post-call state of the caller's examples. -/
structure LMAcc where
  originals : List (List Int)
  inputsL : List (List Int)
  attns : List (List Int)
  labelsL : List (List Int)
  extras : List (String × List (List Int))
  finals : List LMExample

/-- Merge one example's auxiliary-target dict into the accumulated
`defaultdict(list)`: this example's values come before the later ones and
keys keep first-appearance order. -/
def mergeExtras (hd : List (String × List Int)) (tl : List (String × List (List Int))) :
    List (String × List (List Int)) :=
  hd.map (fun kv => (kv.1, kv.2 :: ((tl.lookup kv.1).getD []))) ++
    tl.filter (fun kv => hd.all (fun kv2 => !(kv2.1 == kv.1)))

/-- The loop of `DataCollatorForLanguageModeling.__call__` (lines 143-187).
`prev` is the current binding of the loop-local `_feature` variable: `none`
before the first iteration.  Line 145 reads `_feature` before the loop body
assigns it, so with `keep_original_input` the first iteration raises
`UnboundLocalError`; later iterations would clone the previous (already
corrupted) example's input ids. -/
def lmLoop (cfg : LMConfig) (tok : MLMTokenizer) (u : ℕ → ℕ → ℕ → ℚ) (w : ℕ → ℕ → Int) :
    ℕ → Option LMFields → List LMExample → Except CollateError LMAcc
  | _, _, [] => .ok ⟨[], [], [], [], [], []⟩
  | idx, prev, ex :: rest =>
    let step : Except CollateError (Option (List Int)) :=
      if cfg.keep_original_input then
        match prev with
        | none => .error .unboundLocal
        | some pf => .ok (some pf.input_ids)
      else .ok none
    match step with
    | .error e => .error e
    | .ok orig? =>
      match lmProcess1 cfg tok (u idx) (w idx) ex.fields with
      | .error e => .error e
      | .ok r =>
        match lmLoop cfg tok u w (idx + 1) (some r.1) rest with
        | .error e => .error e
        | .ok tail =>
          .ok ⟨orig?.toList ++ tail.originals, r.2.1 :: tail.inputsL,
            ex.fields.attention_mask :: tail.attns, r.2.2 :: tail.labelsL,
            mergeExtras (ex.secondDict.getD []) tail.extras,
            ex.withFields r.1 :: tail.finals⟩

/-- The primary output mapping of `DataCollatorForLanguageModeling.__call__`
(lines 189-196). -/
structure LMOutput where
  input_ids : List (List Int)
  attention_mask : List (List Int)
  labels : List (List Int)
  unmasked_input_ids : Option (List (List Int))
deriving DecidableEq

/-- Stack each auxiliary-target list (lines 199-201). -/
def stackExtras (extras : List (String × List (List Int))) :
    Except CollateError (List (String × List (List Int))) :=
  match extras with
  | [] => .ok []
  | kv :: rest =>
    match stackE kv.2, stackExtras rest with
    | .ok s, .ok r => .ok ((kv.1, s) :: r)
    | .error e, _ => .error e
    | .ok _, .error e => .error e

/-- `DataCollatorForLanguageModeling.__call__` (lines 137-205): run the
per-example loop, stack the three primary field lists (`torch.stack` of the
inputs first), stack the retained originals when configured, stack the
auxiliary targets, and return them as a second value exactly when some
example carried a dict target.  The call also returns the post-call state of
the caller's examples, which the loop mutates. -/
def dataCollatorForLanguageModeling (cfg : LMConfig) (tok : MLMTokenizer)
    (u : ℕ → ℕ → ℕ → ℚ) (w : ℕ → ℕ → Int) (batch : List LMExample) :
    Except CollateError
      (LMOutput × Option (List (String × List (List Int))) × List LMExample) :=
  match lmLoop cfg tok u w 0 none batch with
  | .error e => .error e
  | .ok acc =>
    match stackE acc.inputsL, stackE acc.attns, stackE acc.labelsL with
    | .ok ids, .ok att, .ok labs =>
      let unmaskedRes : Except CollateError (Option (List (List Int))) :=
        if cfg.keep_original_input then
          match stackE acc.originals with
          | .ok o => .ok (some o)
          | .error e => .error e
        else .ok none
      match unmaskedRes with
      | .error e => .error e
      | .ok unmasked =>
        match stackExtras acc.extras with
        | .error e => .error e
        | .ok extras =>
          let second := if extras.isEmpty then none else some extras
          .ok (⟨ids, att, labs, unmasked⟩, second, acc.finals)
    | .error e, _, _ => .error e
    | .ok _, .error e, _ => .error e
    | .ok _, .ok _, .error e => .error e

/-- The configuration of claim C7: masking enabled, mask probability 1,
replacement fraction 1, random words disabled, originals not retained. -/
def fullMaskCfg (ignore : Int) : LMConfig :=
  ⟨true, 1, ignore, some 1, false, false⟩

/-- A constant uniform sample, used to instantiate random sources. -/
def constHalf : ℕ → ℕ → ℕ → ℚ :=
  fun _ _ _ => mkRat 1 2

/-- A constant random-word source. -/
def constW (v : Int) : ℕ → ℕ → Int :=
  fun _ _ => v

/-- A small concrete tokenizer: pad token 0, mask token 103, vocabulary size
10, no special tokens. -/
def witTok : MLMTokenizer :=
  ⟨some 0, 103, 10, fun l => List.replicate l.length false⟩

/-- A staged uniform source: 3/4 at the replacement stage, 0 elsewhere. -/
def stagedU : ℕ → ℕ → ℕ → ℚ :=
  fun _ s _ => if s = 1 then mkRat 3 4 else 0

/-- Claim C1: for the batch A: input_ids=[5,6,7], labels=[1,2] and
B: input_ids=[5,6], labels=[1,2,3,4] with all-ones attention masks,
pad_token_id=0, label pad (ignore index) -100 and padding side right,
`DataCollatorForSeq2Seq` returns exactly input_ids=[[5,6,7],[5,6,0]],
attention_mask=[[1,1,1],[1,1,0]], labels=[[1,2,-100,-100],[1,2,3,4]]. -/
theorem s2s_concrete_scenario :
    dataCollatorForSeq2Seq ⟨0, -100, .right⟩
      [⟨[5, 6, 7], [1, 1, 1], [1, 2], .pylist⟩, ⟨[5, 6], [1, 1], [1, 2, 3, 4], .pylist⟩] =
    .ok ⟨[[5, 6, 7], [5, 6, 0]], [[1, 1, 1], [1, 1, 0]], [[1, 2, -100, -100], [1, 2, 3, 4]]⟩ := by
  rfl

/-- The seed of a left fold by `max` is a lower bound of the result. -/
lemma le_foldl_max (l : List ℕ) (a : ℕ) : a ≤ l.foldl max a := by
  induction l generalizing a with
  | nil => simp
  | cons b t ih =>
    rw [List.foldl_cons]
    exact le_trans (le_max_left a b) (ih (max a b))

/-- Every member of a list is bounded by the left fold of `max` over it. -/
lemma mem_le_foldl_max (a x : ℕ) {l : List ℕ} (hx : x ∈ l) : x ≤ l.foldl max a := by
  induction hx generalizing a with
  | head t =>
    rw [List.foldl_cons]
    exact le_trans (le_max_right a x) (le_foldl_max t (max a x))
  | tail b hmem ih =>
    rw [List.foldl_cons]
    exact ih (max a b)

/-- Stacking succeeds on a non-empty list of rows of one shared length. -/
lemma stackE_ok_of_const (rows : List (List Int)) (k : Nat) (hne : rows ≠ [])
    (h : ∀ r ∈ rows, r.length = k) : stackE rows = .ok rows := by
  cases rows with
  | nil => exact absurd rfl hne
  | cons r rs =>
    have hall : rs.all (fun s => s.length == r.length) = true := by
      rw [List.all_eq_true]
      intro s hs
      have h1 := h s (List.mem_cons_of_mem _ hs)
      have h2 := h r (List.mem_cons_self _ _)
      rw [h1, h2]
      exact beq_self_eq_true k
    simp [stackE, hall]

/-- A successful stack returns its rows unchanged. -/
lemma stackE_ok_eq (rows out : List (List Int)) (h : stackE rows = .ok out) : out = rows := by
  cases rows with
  | nil => simp [stackE] at h
  | cons r rs =>
    simp only [stackE] at h
    split at h <;> first
      | exact (Except.ok.inj h).symm
      | simp at h

/-- Row lengths produced by the padding body of `DataCollatorForSeq2Seq`. -/
lemma s2sPadFeature_lengths (cfg : S2SConfig) (maxInput maxLabel : Nat) (f : S2SExample)
    (hi : f.input_ids.length ≤ maxInput) (hm : f.attention_mask.length = f.input_ids.length)
    (hl : f.labels.length ≤ maxLabel) :
    (s2sPadFeature cfg maxInput maxLabel f).1.length = maxInput ∧
    (s2sPadFeature cfg maxInput maxLabel f).2.1.length = maxInput ∧
    (s2sPadFeature cfg maxInput maxLabel f).2.2.length = maxLabel := by
  rcases f with ⟨ids, mask, labs, kind⟩
  simp only at hi hm hl
  cases kind <;> rcases cfg with ⟨pt, lpt, side⟩ <;> cases side <;>
    simp [s2sPadFeature, List.length_append, List.length_replicate] <;> omega

/-- Claim C2: every successful `DataCollatorForSeq2Seq` call on a non-empty
batch with well-formed attention masks exists and its `input_ids` and
`attention_mask` rows all have width `maxInputLength` (the maximum raw
input_ids length) while its `labels` rows all have width `maxLabelLength`
(the maximum raw labels length), the two planned independently. -/
theorem s2s_output_widths (cfg : S2SConfig) (batch : List S2SExample)
    (hne : batch ≠ [])
    (hwf : ∀ f ∈ batch, f.attention_mask.length = f.input_ids.length) :
    ∃ out, dataCollatorForSeq2Seq cfg batch = .ok out ∧
      (∀ row ∈ out.input_ids, row.length = maxInputLength batch) ∧
      (∀ row ∈ out.attention_mask, row.length = maxInputLength batch) ∧
      (∀ row ∈ out.labels, row.length = maxLabelLength batch) := by
  have hi : ∀ f ∈ batch, f.input_ids.length ≤ maxInputLength batch := by
    intro f hf
    exact mem_le_foldl_max 0 _ (List.mem_map_of_mem _ hf)
  have hl : ∀ f ∈ batch, f.labels.length ≤ maxLabelLength batch := by
    intro f hf
    exact mem_le_foldl_max 0 _ (List.mem_map_of_mem _ hf)
  have h1 : ∀ r ∈ (batch.map (s2sPadFeature cfg (maxInputLength batch) (maxLabelLength batch))).map
      (fun r => r.1), r.length = maxInputLength batch := by
    intro r hr
    rw [List.mem_map] at hr
    obtain ⟨p, hp, rfl⟩ := hr
    rw [List.mem_map] at hp
    obtain ⟨f, hf, rfl⟩ := hp
    exact (s2sPadFeature_lengths cfg _ _ f (hi f hf) (hwf f hf) (hl f hf)).1
  have h2 : ∀ r ∈ (batch.map (s2sPadFeature cfg (maxInputLength batch) (maxLabelLength batch))).map
      (fun r => r.2.1), r.length = maxInputLength batch := by
    intro r hr
    rw [List.mem_map] at hr
    obtain ⟨p, hp, rfl⟩ := hr
    rw [List.mem_map] at hp
    obtain ⟨f, hf, rfl⟩ := hp
    exact (s2sPadFeature_lengths cfg _ _ f (hi f hf) (hwf f hf) (hl f hf)).2.1
  have h3 : ∀ r ∈ (batch.map (s2sPadFeature cfg (maxInputLength batch) (maxLabelLength batch))).map
      (fun r => r.2.2), r.length = maxLabelLength batch := by
    intro r hr
    rw [List.mem_map] at hr
    obtain ⟨p, hp, rfl⟩ := hr
    rw [List.mem_map] at hp
    obtain ⟨f, hf, rfl⟩ := hp
    exact (s2sPadFeature_lengths cfg _ _ f (hi f hf) (hwf f hf) (hl f hf)).2.2
  cases batch with
  | nil => exact absurd rfl hne
  | cons b bs =>
    have hne1 : ((b :: bs).map (s2sPadFeature cfg (maxInputLength (b :: bs))
        (maxLabelLength (b :: bs)))).map (fun r => r.1) ≠ [] := by simp
    have hne2 : ((b :: bs).map (s2sPadFeature cfg (maxInputLength (b :: bs))
        (maxLabelLength (b :: bs)))).map (fun r => r.2.1) ≠ [] := by simp
    have hne3 : ((b :: bs).map (s2sPadFeature cfg (maxInputLength (b :: bs))
        (maxLabelLength (b :: bs)))).map (fun r => r.2.2) ≠ [] := by simp
    have hs1 := stackE_ok_of_const _ _ hne1 h1
    have hs2 := stackE_ok_of_const _ _ hne2 h2
    have hs3 := stackE_ok_of_const _ _ hne3 h3
    refine ⟨⟨_, _, _⟩, ?_, h1, h2, h3⟩
    simp only [dataCollatorForSeq2Seq]
    rw [hs1, hs2, hs3]
    rfl

/-- Concrete instance of claim C2's theorem: the scenario batch satisfies the
hypotheses and gets widths 3 and 4. -/
theorem s2s_output_widths_witness :
    ∃ out, dataCollatorForSeq2Seq ⟨0, -100, .right⟩
        [⟨[5, 6, 7], [1, 1, 1], [1, 2], .pylist⟩, ⟨[5, 6], [1, 1], [1, 2, 3, 4], .pylist⟩] =
        .ok out ∧
      (∀ row ∈ out.input_ids, row.length = maxInputLength
        [⟨[5, 6, 7], [1, 1, 1], [1, 2], .pylist⟩, ⟨[5, 6], [1, 1], [1, 2, 3, 4], .pylist⟩]) ∧
      (∀ row ∈ out.attention_mask, row.length = maxInputLength
        [⟨[5, 6, 7], [1, 1, 1], [1, 2], .pylist⟩, ⟨[5, 6], [1, 1], [1, 2, 3, 4], .pylist⟩]) ∧
      (∀ row ∈ out.labels, row.length = maxLabelLength
        [⟨[5, 6, 7], [1, 1, 1], [1, 2], .pylist⟩, ⟨[5, 6], [1, 1], [1, 2, 3, 4], .pylist⟩]) :=
  s2s_output_widths ⟨0, -100, .right⟩
    [⟨[5, 6, 7], [1, 1, 1], [1, 2], .pylist⟩, ⟨[5, 6], [1, 1], [1, 2, 3, 4], .pylist⟩]
    (by decide) (by decide)

/-- Claim C3 counterexample: with padding side left and Python-list labels the
code appends the fill on the right anyway — the first padded input row is
[5, 0], not the prepended [0, 5] that uniform left padding requires. -/
theorem s2s_padding_side_counterexample :
    dataCollatorForSeq2Seq ⟨0, -100, .left⟩
      [⟨[5], [1], [1], .pylist⟩, ⟨[5, 6], [1, 1], [1, 2], .pylist⟩] =
      .ok ⟨[[5, 0], [5, 6]], [[1, 0], [1, 1]], [[1, -100], [1, 2]]⟩ ∧
    ([5, 0] : List Int) ≠ [0, 5] :=
  ⟨rfl, by decide⟩


/-- Components of a successful `DataCollatorForSeq2Seq` call are exactly the
stacked padded rows of its second loop. -/
lemma dataCollatorForSeq2Seq_ok_eq (cfg : S2SConfig) (batch : List S2SExample)
    (out : S2SOutput) (h : dataCollatorForSeq2Seq cfg batch = .ok out) :
    out.input_ids = (batch.map (s2sPadFeature cfg (maxInputLength batch)
      (maxLabelLength batch))).map (fun r => r.1) ∧
    out.attention_mask = (batch.map (s2sPadFeature cfg (maxInputLength batch)
      (maxLabelLength batch))).map (fun r => r.2.1) ∧
    out.labels = (batch.map (s2sPadFeature cfg (maxInputLength batch)
      (maxLabelLength batch))).map (fun r => r.2.2) := by
  cases batch with
  | nil => simp [dataCollatorForSeq2Seq] at h
  | cons b bs =>
    simp only [dataCollatorForSeq2Seq] at h
    split at h <;> try simp at h
    rename_i ids att labs heq1 heq2 heq3
    have e1 := stackE_ok_eq _ _ heq1
    have e2 := stackE_ok_eq _ _ heq2
    have e3 := stackE_ok_eq _ _ heq3
    have ho : S2SOutput.mk ids att labs = out := h
    subst ho
    subst e1
    subst e2
    subst e3
    simp

/-- Claim C3 (amended): in every successful `DataCollatorForSeq2Seq` call the
original elements of every field are preserved contiguously and in order, but
the side is only respected for array-valued labels: the fill block is appended
on the right both when the padding side is right and, regardless of the
configured side, whenever the example's labels value is a plain Python list;
it is prepended only for array-valued labels with padding side left. -/
theorem s2s_padding_side_amended (cfg : S2SConfig) (batch : List S2SExample)
    (out : S2SOutput) (h : dataCollatorForSeq2Seq cfg batch = .ok out)
    (j : ℕ) (hj : j < batch.length) (f : S2SExample) (hf : batch.get ⟨j, hj⟩ = f) :
    ((f.labelsKind = .pylist ∨ cfg.padding_side = .right) →
      out.input_ids.get? j = some (f.input_ids ++
        List.replicate (maxInputLength batch - f.input_ids.length) cfg.pad_token_id) ∧
      out.attention_mask.get? j = some (f.attention_mask ++
        List.replicate (maxInputLength batch - f.input_ids.length) (0 : Int)) ∧
      out.labels.get? j = some (f.labels ++
        List.replicate (maxLabelLength batch - f.labels.length) cfg.label_pad_token_id)) ∧
    ((f.labelsKind = .ndarray ∧ cfg.padding_side = .left) →
      out.input_ids.get? j = some
        (List.replicate (maxInputLength batch - f.input_ids.length) cfg.pad_token_id ++ f.input_ids) ∧
      out.attention_mask.get? j = some
        (List.replicate (maxInputLength batch - f.input_ids.length) (0 : Int) ++ f.attention_mask) ∧
      out.labels.get? j = some
        (List.replicate (maxLabelLength batch - f.labels.length) cfg.label_pad_token_id ++ f.labels)) := by
  obtain ⟨e1, e2, e3⟩ := dataCollatorForSeq2Seq_ok_eq cfg batch out h
  have hget : batch.get? j = some f := by
    rw [List.get?_eq_get hj, hf]
  have g1 : out.input_ids.get? j =
      some ((s2sPadFeature cfg (maxInputLength batch) (maxLabelLength batch) f).1) := by
    rw [e1, List.get?_map, List.get?_map, hget]
    rfl
  have g2 : out.attention_mask.get? j =
      some ((s2sPadFeature cfg (maxInputLength batch) (maxLabelLength batch) f).2.1) := by
    rw [e2, List.get?_map, List.get?_map, hget]
    rfl
  have g3 : out.labels.get? j =
      some ((s2sPadFeature cfg (maxInputLength batch) (maxLabelLength batch) f).2.2) := by
    rw [e3, List.get?_map, List.get?_map, hget]
    rfl
  constructor
  · intro hcase
    rcases hcase with hk | hs
    · rw [g1, g2, g3]
      simp [s2sPadFeature, hk]
    · cases hk : f.labelsKind with
      | pylist =>
        rw [g1, g2, g3]
        simp [s2sPadFeature, hk]
      | ndarray =>
        rw [g1, g2, g3]
        simp [s2sPadFeature, hk, hs]
  · rintro ⟨hk, hs⟩
    rw [g1, g2, g3]
    simp [s2sPadFeature, hk, hs]

/-- Concrete instance of claim C3's amended theorem: with padding side left
and Python-list labels, the first row keeps its original element first and
the fill appended. -/
theorem s2s_padding_side_amended_witness :
    (S2SOutput.input_ids ⟨[[5, 0], [5, 6]], [[1, 0], [1, 1]], [[1, -100], [1, 2]]⟩).get? 0 =
      some (([5] : List Int) ++ List.replicate
        (maxInputLength [⟨[5], [1], [1], .pylist⟩, ⟨[5, 6], [1, 1], [1, 2], .pylist⟩] - 1) (0 : Int)) := by
  have hth := s2s_padding_side_amended ⟨0, -100, .left⟩
    [⟨[5], [1], [1], .pylist⟩, ⟨[5, 6], [1, 1], [1, 2], .pylist⟩]
    ⟨[[5, 0], [5, 6]], [[1, 0], [1, 1]], [[1, -100], [1, 2]]⟩ (by rfl)
    0 (by decide) ⟨[5], [1], [1], .pylist⟩ (by rfl)
  exact (hth.1 (Or.inl rfl)).1

/-- Claim C6: each of the three collators fails synchronously on an empty
batch — the two padding collators when `max()` sees an empty sequence, the
language-modeling collator when `torch.stack` sees an empty tensor list — and
no partial output is produced. -/
theorem collators_empty_batch_error (c1 : S2SConfig) (c2 : LSConfig) (c3 : LMConfig)
    (tok : MLMTokenizer) (u : ℕ → ℕ → ℕ → ℚ) (w : ℕ → ℕ → Int) :
    dataCollatorForSeq2Seq c1 [] = .error .emptyMax ∧
    dataCollatorForLongestSequence c2 [] = .error .emptyMax ∧
    dataCollatorForLanguageModeling c3 tok u w [] = .error .emptyStack :=
  ⟨rfl, rfl, rfl⟩

/-- The collected targets are non-empty exactly when some example is the
tuple variant. -/
lemma lsTargets_ne_nil_iff (batch : List LSExample) :
    lsTargets batch ≠ [] ↔ batch.any LSExample.isPair = true := by
  induction batch with
  | nil => simp [lsTargets]
  | cons e t ih =>
    cases e with
    | plain f => simpa [lsTargets, LSExample.isPair] using ih
    | pair f tgt => simp [lsTargets, LSExample.isPair]

/-- Claim C8: a successful `DataCollatorForLongestSequence` call returns the
stacked targets, collected in batch order, as a second value exactly when
some example in the batch is the `(fields, target)` tuple variant, and no
second value at all when none is. -/
theorem ls_optional_second_value (cfg : LSConfig) (batch : List LSExample)
    (out : LSOutput) (sec : Option (List (List Int)))
    (h : dataCollatorForLongestSequence cfg batch = .ok (out, sec)) :
    (batch.any LSExample.isPair = true → sec = some (lsTargets batch)) ∧
    (batch.any LSExample.isPair = false → sec = none) := by
  cases batch with
  | nil => simp [dataCollatorForLongestSequence] at h
  | cons b bs =>
    simp only [dataCollatorForLongestSequence] at h
    split at h <;> try simp at h
    rename_i ids att heq1 heq2
    by_cases hp : (b :: bs).any LSExample.isPair = true
    · have hne : lsTargets (b :: bs) ≠ [] := (lsTargets_ne_nil_iff (b :: bs)).mpr hp
      have hlen : (lsTargets (b :: bs)).length > 0 := List.length_pos.mpr hne
      rw [if_pos hlen] at h
      constructor
      · intro _
        cases hst : stackE (lsTargets (b :: bs)) with
        | error e =>
          rw [hst] at h
          simp at h
        | ok st =>
          rw [hst] at h
          simp at h
          have hse := stackE_ok_eq _ _ hst
          subst hse
          exact h.2.symm
      · intro hfalse
        rw [hp] at hfalse
        cases hfalse
    · have hemp : lsTargets (b :: bs) = [] := by
        by_contra hc
        exact hp ((lsTargets_ne_nil_iff (b :: bs)).mp hc)
      rw [hemp] at h
      simp at h
      exact ⟨fun ht => absurd ht hp, fun _ => h.2.symm⟩

/-- Concrete instance of claim C8's theorem: a one-example batch whose example
carries the paired target [3] yields it stacked as the second value. -/
theorem ls_optional_second_value_witness :
    (([LSExample.pair ⟨[5], [1]⟩ [3]].any LSExample.isPair = true) →
      some [[3]] = some (lsTargets [LSExample.pair ⟨[5], [1]⟩ [3]])) ∧
    (([LSExample.pair ⟨[5], [1]⟩ [3]].any LSExample.isPair = false) →
      (some [[3]] : Option (List (List Int))) = none) :=
  ls_optional_second_value ⟨0, .right⟩ [LSExample.pair ⟨[5], [1]⟩ [3]]
    ⟨[[5]], [[1]]⟩ (some [[3]]) (by rfl)

/-- Positions of a range-map list below the range bound. -/
lemma getD_range_map {α : Type} (n : ℕ) (g : ℕ → α) (i : ℕ) (d : α) (hi : i < n) :
    ((List.range n).map g).getD i d = g i := by
  rw [List.getD_eq_getElem?_getD, List.getElem?_map, List.getElem?_range hi]
  rfl

/-- Mapped positions below the length. -/
lemma getD_map_lt {α β : Type} (f : α → β) (l : List α) (i : ℕ) (d : β) (d0 : α)
    (hi : i < l.length) : (l.map f).getD i d = f (l.getD i d0) := by
  rw [List.getD_eq_getElem?_getD, List.getD_eq_getElem?_getD, List.getElem?_map,
    List.getElem?_eq_getElem hi]
  rfl

/-- Iteration `j` of the language-modeling loop, when originals are not
retained: the accumulated lists hold the `lmProcess1` results of the `j`-th
example under the `j`-th example's random samples, and the `j`-th final
example is the original with its mapping replaced by the mutated one. -/
lemma lmLoop_get (cfg : LMConfig) (tok : MLMTokenizer) (u : ℕ → ℕ → ℕ → ℚ)
    (w : ℕ → ℕ → Int) (hk : cfg.keep_original_input = false) (batch : List LMExample) :
    ∀ (idx : ℕ) (prev : Option LMFields) (acc : LMAcc),
      lmLoop cfg tok u w idx prev batch = .ok acc →
      ∀ (j : ℕ) (hj : j < batch.length),
        ∃ r, lmProcess1 cfg tok (u (idx + j)) (w (idx + j)) (batch.get ⟨j, hj⟩).fields = .ok r ∧
          acc.inputsL.get? j = some r.2.1 ∧
          acc.attns.get? j = some (batch.get ⟨j, hj⟩).fields.attention_mask ∧
          acc.labelsL.get? j = some r.2.2 ∧
          acc.finals.get? j = some ((batch.get ⟨j, hj⟩).withFields r.1) := by
  induction batch with
  | nil =>
    intro idx prev acc h j hj
    exact absurd hj (Nat.not_lt_zero j)
  | cons ex rest ih =>
    intro idx prev acc h j hj
    simp only [lmLoop, hk, Bool.false_eq_true, if_false] at h
    split at h
    · simp at h
    · rename_i r hp
      split at h
      · simp at h
      · rename_i tail ht
        simp at h
        subst h
        cases j with
        | zero =>
          exact ⟨r, hp, rfl, rfl, rfl, rfl⟩
        | succ j' =>
          have hj' : j' < rest.length := Nat.lt_of_succ_lt_succ (by simpa using hj)
          obtain ⟨r', hr', h1, h2, h3, h4⟩ := ih (idx + 1) (some r.1) tail ht j' hj'
          have hidx : idx + (j' + 1) = idx + 1 + j' := by omega
          refine ⟨r', ?_, ?_, ?_, ?_, ?_⟩
          · rw [hidx]
            simpa using hr'
          · simpa using h1
          · simpa using h2
          · simpa using h3
          · simpa using h4

/-- A successful language-modeling call (originals not retained) is the
stacked output of its loop, and returns the loop's final example states. -/
lemma lm_call_ok_eq (cfg : LMConfig) (tok : MLMTokenizer) (u : ℕ → ℕ → ℕ → ℚ)
    (w : ℕ → ℕ → Int) (batch : List LMExample) (out : LMOutput)
    (sec : Option (List (String × List (List Int)))) (fin : List LMExample)
    (hk : cfg.keep_original_input = false)
    (h : dataCollatorForLanguageModeling cfg tok u w batch = .ok (out, sec, fin)) :
    ∃ acc, lmLoop cfg tok u w 0 none batch = .ok acc ∧
      out.input_ids = acc.inputsL ∧ out.attention_mask = acc.attns ∧
      out.labels = acc.labelsL ∧ fin = acc.finals := by
  unfold dataCollatorForLanguageModeling at h
  split at h
  · simp at h
  · rename_i acc hl
    refine ⟨acc, hl, ?_⟩
    simp only [hk, Bool.false_eq_true, if_false] at h
    split at h
    · rename_i ids att labs he1 he2 he3
      split at h
      · simp at h
      · rename_i extras hx
        simp at h
        obtain ⟨ho, _, hf⟩ := h
        have e1 := stackE_ok_eq _ _ he1
        have e2 := stackE_ok_eq _ _ he2
        have e3 := stackE_ok_eq _ _ he3
        rw [← ho]
        exact ⟨e1, e2, e3, hf.symm⟩
    · simp at h
    · simp at h
    · simp at h

/-- With `keep_original_input` set, the loop reads the loop-local `_feature`
variable before its first assignment: any non-empty batch raises
`UnboundLocalError` immediately. -/
lemma lm_keep_original_loop_unbound (cfg : LMConfig) (tok : MLMTokenizer)
    (u : ℕ → ℕ → ℕ → ℚ) (w : ℕ → ℕ → Int) (ex : LMExample) (rest : List LMExample)
    (hk : cfg.keep_original_input = true) :
    dataCollatorForLanguageModeling cfg tok u w (ex :: rest) = .error .unboundLocal := by
  unfold dataCollatorForLanguageModeling
  have hl : lmLoop cfg tok u w 0 none (ex :: rest) = .error .unboundLocal := by
    simp [lmLoop, hk]
  rw [hl]

/-- Without masking, `lmProcess1` never consults the random source. -/
lemma lmProcess1_mlm_false_indep (cfg : LMConfig) (tok : MLMTokenizer)
    (u u' : ℕ → ℕ → ℚ) (w w' : ℕ → Int) (f : LMFields) (hm : cfg.mlm = false) :
    lmProcess1 cfg tok u w f = lmProcess1 cfg tok u' w' f := by
  simp [lmProcess1, hm]

/-- Without masking, the whole loop never consults the random source. -/
lemma lmLoop_mlm_false_indep (cfg : LMConfig) (tok : MLMTokenizer)
    (u u' : ℕ → ℕ → ℕ → ℚ) (w w' : ℕ → ℕ → Int) (hm : cfg.mlm = false) :
    ∀ (batch : List LMExample) (idx : ℕ) (prev : Option LMFields),
      lmLoop cfg tok u w idx prev batch = lmLoop cfg tok u' w' idx prev batch := by
  intro batch
  induction batch with
  | nil =>
    intro idx prev
    rfl
  | cons ex rest ih =>
    intro idx prev
    have hp := lmProcess1_mlm_false_indep cfg tok (u idx) (u' idx) (w idx) (w' idx)
      ex.fields hm
    simp only [lmLoop, hp, ih]

/-- Oracle independence of the whole call when masking is disabled. -/
lemma lm_call_mlm_false_indep (cfg : LMConfig) (tok : MLMTokenizer)
    (u u' : ℕ → ℕ → ℕ → ℚ) (w w' : ℕ → ℕ → Int) (batch : List LMExample)
    (hm : cfg.mlm = false) :
    dataCollatorForLanguageModeling cfg tok u w batch =
      dataCollatorForLanguageModeling cfg tok u' w' batch := by
  unfold dataCollatorForLanguageModeling
  rw [lmLoop_mlm_false_indep cfg tok u u' w w' hm batch 0 none]

/-- A successful call on a non-empty batch implies originals were not
retained (otherwise the first iteration raises). -/
lemma lm_call_ok_keep_false (cfg : LMConfig) (tok : MLMTokenizer)
    (u : ℕ → ℕ → ℕ → ℚ) (w : ℕ → ℕ → Int) (batch : List LMExample)
    (out : LMOutput) (sec : Option (List (String × List (List Int)))) (fin : List LMExample)
    (h : dataCollatorForLanguageModeling cfg tok u w batch = .ok (out, sec, fin))
    (hne : batch ≠ []) : cfg.keep_original_input = false := by
  cases hkc : cfg.keep_original_input
  · rfl
  · cases batch with
    | nil => exact absurd rfl hne
    | cons ex rest =>
      rw [lm_keep_original_loop_unbound cfg tok u w ex rest hkc] at h
      simp at h

/-- Shape of every successful `lmProcess1` result: special-tokens entry
popped, labels entry inserted, mutated input ids returned. -/
lemma lmProcess1_shape (cfg : LMConfig) (tok : MLMTokenizer) (u : ℕ → ℕ → ℚ)
    (w : ℕ → Int) (f : LMFields) (r : LMFields × List Int × List Int)
    (h : lmProcess1 cfg tok u w f = .ok r) :
    r.1.special_tokens_mask = none ∧ r.1.input_ids = r.2.1 ∧
    r.1.labels = some r.2.2 ∧ r.1.attention_mask = f.attention_mask := by
  obtain ⟨r1, r21, r22⟩ := r
  unfold lmProcess1 at h
  by_cases hm : cfg.mlm = true
  · rw [hm, if_pos rfl] at h
    by_cases hlen : (lmSpecial tok f.special_tokens_mask f.input_ids).length =
        f.input_ids.length
    · rw [if_pos hlen] at h
      have h' := Except.ok.inj h
      injection h' with ha hbc
      injection hbc with hb hc
      subst ha
      subst hb
      subst hc
      exact ⟨rfl, rfl, rfl, rfl⟩
    · rw [if_neg hlen] at h
      simp at h
  · rw [if_neg (by simpa using hm)] at h
    have h' := Except.ok.inj h
    injection h' with ha hbc
    injection hbc with hb hc
    subst ha
    subst hb
    subst hc
    exact ⟨rfl, rfl, rfl, rfl⟩

/-- Characterization of a successful `lmProcess1` in the masking branch:
the labels keep originals exactly at masked positions and the returned
inputs follow the mask-token / random-word replacement policy. -/
lemma lmProcess1_mlm_ok (cfg : LMConfig) (tok : MLMTokenizer) (u : ℕ → ℕ → ℚ)
    (w : ℕ → Int) (f : LMFields) (r : LMFields × List Int × List Int)
    (hm : cfg.mlm = true) (h : lmProcess1 cfg tok u w f = .ok r) :
    r.2.2 = (List.range f.input_ids.length).map (fun i =>
      if lmMaskedBit cfg u (lmSpecial tok f.special_tokens_mask f.input_ids) i
      then f.input_ids.getD i 0 else cfg.ignore_index) ∧
    r.2.1 = (if mtmEnabled cfg && cfg.apply_random_words then
        (List.range f.input_ids.length).map (fun i =>
          if lmRandomBit cfg u (lmSpecial tok f.special_tokens_mask f.input_ids) i then w i
          else (if mtmEnabled cfg then
              (List.range f.input_ids.length).map (fun k =>
                if lmReplacedBit cfg u (lmSpecial tok f.special_tokens_mask f.input_ids) k
                then tok.mask_token_id else f.input_ids.getD k 0)
            else f.input_ids).getD i 0)
      else (if mtmEnabled cfg then
          (List.range f.input_ids.length).map (fun k =>
            if lmReplacedBit cfg u (lmSpecial tok f.special_tokens_mask f.input_ids) k
            then tok.mask_token_id else f.input_ids.getD k 0)
        else f.input_ids)) := by
  obtain ⟨r1, r21, r22⟩ := r
  unfold lmProcess1 at h
  rw [hm, if_pos rfl] at h
  by_cases hlen : (lmSpecial tok f.special_tokens_mask f.input_ids).length =
      f.input_ids.length
  · rw [if_pos hlen] at h
    have h' := Except.ok.inj h
    injection h' with ha hbc
    injection hbc with hb hc
    subst hb
    subst hc
    exact ⟨rfl, rfl⟩
  · rw [if_neg hlen] at h
    simp at h

/-- Replacing the mapping and projecting it back gives the new mapping. -/
lemma LMExample.fields_withFields (ex : LMExample) (g : LMFields) :
    (ex.withFields g).fields = g := by
  cases ex <;> rfl

/-- Claim C5 (code behavior at the failing input): with retain_original_input
enabled the call never succeeds on any non-empty batch — line 145 reads the
loop-local `_feature` before its first assignment, so the first iteration
raises `UnboundLocalError` and no retained output is produced. -/
theorem lm_keep_original_input_unbound (cfg : LMConfig) (tok : MLMTokenizer)
    (u : ℕ → ℕ → ℕ → ℚ) (w : ℕ → ℕ → Int) (batch : List LMExample)
    (hk : cfg.keep_original_input = true) (hne : batch ≠ []) :
    dataCollatorForLanguageModeling cfg tok u w batch = .error .unboundLocal := by
  cases batch with
  | nil => exact absurd rfl hne
  | cons ex rest => exact lm_keep_original_loop_unbound cfg tok u w ex rest hk

/-- Concrete instance of claim C5's theorem: a one-example batch with
retain_original_input on raises immediately. -/
theorem lm_keep_original_input_unbound_witness :
    dataCollatorForLanguageModeling ⟨true, mkRat 15 100, -100, some (mkRat 8 10), true, true⟩ witTok
      constHalf (constW 0) [.plain ⟨[5], [1], none, none⟩] = .error .unboundLocal :=
  lm_keep_original_input_unbound ⟨true, mkRat 15 100, -100, some (mkRat 8 10), true, true⟩ witTok
    constHalf (constW 0) [.plain ⟨[5], [1], none, none⟩] rfl (by decide)

/-- Claim C4 counterexample: with the ignore index configured as 7, masking
disabled and pad token 0, the pad position of the labels is rewritten to the
literal -100, not to the configured ignore index 7. -/
theorem lm_no_mlm_ignore_index_counterexample :
    dataCollatorForLanguageModeling ⟨false, mkRat 15 100, 7, some (mkRat 8 10), true, false⟩ witTok
        constHalf (constW 0) [.plain ⟨[0, 5], [1, 1], none, none⟩] =
      .ok (⟨[[0, 5]], [[1, 1]], [[-100, 5]], none⟩, none,
        [.plain ⟨[0, 5], [1, 1], none, some [-100, 5]⟩]) ∧
    ((-100 : Int) ≠ 7) :=
  ⟨rfl, by decide⟩

/-- Claim C4 (amended): when masking is disabled, each output labels row is a
clone of the example's input_ids in which every position holding the pad
token id is rewritten to the literal -100 (not the configured ignore index),
the inputs are returned unchanged, and the call never consults the random
source. -/
theorem lm_no_mlm_labels (cfg : LMConfig) (tok : MLMTokenizer)
    (u u' : ℕ → ℕ → ℕ → ℚ) (w w' : ℕ → ℕ → Int) (batch : List LMExample)
    (out : LMOutput) (sec : Option (List (String × List (List Int))))
    (fin : List LMExample) (hm : cfg.mlm = false)
    (h : dataCollatorForLanguageModeling cfg tok u w batch = .ok (out, sec, fin))
    (j : ℕ) (hj : j < batch.length) :
    ∃ lrow, out.labels.get? j = some lrow ∧
      out.input_ids.get? j = some (batch.get ⟨j, hj⟩).fields.input_ids ∧
      lrow.length = (batch.get ⟨j, hj⟩).fields.input_ids.length ∧
      (∀ i, i < lrow.length → lrow.getD i 0 =
        (if some ((batch.get ⟨j, hj⟩).fields.input_ids.getD i 0) = tok.pad_token_id then -100
         else (batch.get ⟨j, hj⟩).fields.input_ids.getD i 0)) ∧
      dataCollatorForLanguageModeling cfg tok u' w' batch = .ok (out, sec, fin) := by
  have hne : batch ≠ [] := by
    intro hb
    rw [hb] at hj
    exact absurd hj (by simp)
  have hk := lm_call_ok_keep_false cfg tok u w batch out sec fin h hne
  obtain ⟨acc, hl, ho1, ho2, ho3, ho4⟩ := lm_call_ok_eq cfg tok u w batch out sec fin hk h
  obtain ⟨r, hp, h1, h2, h3, h4⟩ := lmLoop_get cfg tok u w hk batch 0 none acc hl j hj
  have hr : r.2.2 = lmNoMlmLabels tok (batch.get ⟨j, hj⟩).fields.input_ids ∧
      r.2.1 = (batch.get ⟨j, hj⟩).fields.input_ids := by
    unfold lmProcess1 at hp
    rw [if_neg (by simp [hm])] at hp
    have h' := Except.ok.inj hp
    exact ⟨congrArg (fun t => t.2.2) h'.symm, congrArg (fun t => t.2.1) h'.symm⟩
  refine ⟨r.2.2, ?_, ?_, ?_, ?_, ?_⟩
  · rw [ho3]
    exact h3
  · rw [ho1, h1, hr.2]
  · rw [hr.1]
    unfold lmNoMlmLabels
    cases tok.pad_token_id <;> simp
  · intro i hi
    rw [hr.1] at hi ⊢
    cases hpt : tok.pad_token_id with
    | none => simp [lmNoMlmLabels, hpt]
    | some p =>
      simp only [lmNoMlmLabels, hpt] at hi ⊢
      rw [List.length_map] at hi
      rw [getD_map_lt _ _ _ _ 0 hi]
      simp only [Option.some.injEq]
  · rw [← lm_call_mlm_false_indep cfg tok u u' w w' batch hm]
    exact h

/-- Concrete instance of claim C4's amended theorem: pad position rewritten
to -100, non-pad kept, inputs unchanged, result identical under a different
random source. -/
theorem lm_no_mlm_labels_witness :
    ∃ lrow, ([[-100, 5]] : List (List Int)).get? 0 = some lrow ∧
      ([[0, 5]] : List (List Int)).get? 0 = some ([0, 5] : List Int) ∧
      lrow.length = ([0, 5] : List Int).length ∧
      (∀ i, i < lrow.length → lrow.getD i 0 =
        (if some (([0, 5] : List Int).getD i 0) = some (0 : Int) then -100
         else ([0, 5] : List Int).getD i 0)) ∧
      dataCollatorForLanguageModeling ⟨false, mkRat 15 100, 7, some (mkRat 8 10), true, false⟩ witTok
        stagedU (constW 3) [.plain ⟨[0, 5], [1, 1], none, none⟩] =
        .ok (⟨[[0, 5]], [[1, 1]], [[-100, 5]], none⟩, none,
          [.plain ⟨[0, 5], [1, 1], none, some [-100, 5]⟩]) :=
  lm_no_mlm_labels ⟨false, mkRat 15 100, 7, some (mkRat 8 10), true, false⟩ witTok
    constHalf stagedU (constW 0) (constW 3) [.plain ⟨[0, 5], [1, 1], none, none⟩]
    ⟨[[0, 5]], [[1, 1]], [[-100, 5]], none⟩ none
    [.plain ⟨[0, 5], [1, 1], none, some [-100, 5]⟩] rfl rfl 0 (by decide)

/-- Claim C7: with mask probability 1, mask replacement fraction 1 and random
replacement disabled, every position not flagged by the special-tokens mask
has its input token replaced by the mask token id and its labels entry equal
to the original token id. -/
theorem lm_full_mask (ignore : Int) (tok : MLMTokenizer) (u : ℕ → ℕ → ℕ → ℚ)
    (w : ℕ → ℕ → Int) (batch : List LMExample) (out : LMOutput)
    (sec : Option (List (String × List (List Int)))) (fin : List LMExample)
    (hu : ∀ e s i, 0 ≤ u e s i ∧ u e s i < 1)
    (h : dataCollatorForLanguageModeling (fullMaskCfg ignore) tok u w batch =
      .ok (out, sec, fin))
    (j : ℕ) (hj : j < batch.length) (i : ℕ)
    (hi : i < (batch.get ⟨j, hj⟩).fields.input_ids.length)
    (hs : (lmSpecial tok (batch.get ⟨j, hj⟩).fields.special_tokens_mask
      (batch.get ⟨j, hj⟩).fields.input_ids).getD i false = false) :
    ∃ row lrow, out.input_ids.get? j = some row ∧ out.labels.get? j = some lrow ∧
      row.getD i 0 = tok.mask_token_id ∧
      lrow.getD i 0 = (batch.get ⟨j, hj⟩).fields.input_ids.getD i 0 := by
  obtain ⟨acc, hl, ho1, ho2, ho3, ho4⟩ :=
    lm_call_ok_eq (fullMaskCfg ignore) tok u w batch out sec fin rfl h
  obtain ⟨r, hp, h1, h2, h3, h4⟩ :=
    lmLoop_get (fullMaskCfg ignore) tok u w rfl batch 0 none acc hl j hj
  rw [Nat.zero_add] at hp
  obtain ⟨hlab, hin⟩ := lmProcess1_mlm_ok (fullMaskCfg ignore) tok (u j) (w j) _ r rfl hp
  have hmask : lmMaskedBit (fullMaskCfg ignore) (u j)
      (lmSpecial tok (batch.get ⟨j, hj⟩).fields.special_tokens_mask
        (batch.get ⟨j, hj⟩).fields.input_ids) i = true := by
    unfold lmMaskedBit
    rw [hs]
    simp [fullMaskCfg, decide_eq_true_eq]
    exact (hu j 0 i).2
  have hrep : lmReplacedBit (fullMaskCfg ignore) (u j)
      (lmSpecial tok (batch.get ⟨j, hj⟩).fields.special_tokens_mask
        (batch.get ⟨j, hj⟩).fields.input_ids) i = true := by
    unfold lmReplacedBit
    rw [hmask]
    simp [fullMaskCfg, decide_eq_true_eq]
    exact (hu j 1 i).2
  have hmtm : mtmEnabled (fullMaskCfg ignore) = true := by
    simp [mtmEnabled, fullMaskCfg]
  have hcond : (mtmEnabled (fullMaskCfg ignore) &&
      (fullMaskCfg ignore).apply_random_words) = false := by
    rw [hmtm]
    rfl
  refine ⟨r.2.1, r.2.2, ?_, ?_, ?_, ?_⟩
  · rw [ho1]
    exact h1
  · rw [ho3]
    exact h3
  · rw [hin, hcond, if_neg Bool.false_ne_true, hmtm, if_pos rfl,
      getD_range_map _ _ _ _ hi, hrep, if_pos rfl]
  · rw [hlab, getD_range_map _ _ _ _ hi, hmask, if_pos rfl]

/-- Concrete instance of claim C7's theorem: both positions of the example
become the mask token 103 and the labels keep 5 and 6. -/
theorem lm_full_mask_witness :
    ∃ row lrow, ([[103, 103]] : List (List Int)).get? 0 = some row ∧
      ([[5, 6]] : List (List Int)).get? 0 = some lrow ∧
      row.getD 0 0 = (103 : Int) ∧ lrow.getD 0 0 = (5 : Int) :=
  lm_full_mask (-100) witTok constHalf (constW 0) [.plain ⟨[5, 6], [1, 1], none, none⟩]
    ⟨[[103, 103]], [[1, 1]], [[5, 6]], none⟩ none
    [.plain ⟨[103, 103], [1, 1], none, some [5, 6]⟩]
    (fun e s i => ⟨by norm_num [constHalf], by norm_num [constHalf]⟩)
    rfl 0 (by decide) 0 (by decide) rfl

/-- Claim C9: with masking on, replacement enabled and random words allowed,
a position that is masked but not replaced with the mask token is overwritten
exactly when its independent stage-three Bernoulli sample at probability 1/2
succeeds, and then receives the sampled word, a valid vocabulary id; when the
sample fails the original token is kept. -/
theorem lm_random_word_replacement (cfg : LMConfig) (tok : MLMTokenizer)
    (u : ℕ → ℕ → ℕ → ℚ) (w : ℕ → ℕ → Int) (batch : List LMExample)
    (out : LMOutput) (sec : Option (List (String × List (List Int)))) (fin : List LMExample)
    (q : ℚ) (hmlm : cfg.mlm = true) (hq : cfg.masked_to_mask = some q) (hq0 : q ≠ 0)
    (harw : cfg.apply_random_words = true)
    (hw : ∀ e i, 0 ≤ w e i ∧ w e i < (tok.vocab_size : Int))
    (h : dataCollatorForLanguageModeling cfg tok u w batch = .ok (out, sec, fin))
    (j : ℕ) (hj : j < batch.length) (i : ℕ)
    (hi : i < (batch.get ⟨j, hj⟩).fields.input_ids.length)
    (hmask : lmMaskedBit cfg (u j) (lmSpecial tok
      (batch.get ⟨j, hj⟩).fields.special_tokens_mask
      (batch.get ⟨j, hj⟩).fields.input_ids) i = true)
    (hrep : lmReplacedBit cfg (u j) (lmSpecial tok
      (batch.get ⟨j, hj⟩).fields.special_tokens_mask
      (batch.get ⟨j, hj⟩).fields.input_ids) i = false) :
    ∃ row, out.input_ids.get? j = some row ∧
      (u j 2 i < mkRat 1 2 → row.getD i 0 = w j i ∧
        0 ≤ row.getD i 0 ∧ row.getD i 0 < (tok.vocab_size : Int)) ∧
      (¬ u j 2 i < mkRat 1 2 →
        row.getD i 0 = (batch.get ⟨j, hj⟩).fields.input_ids.getD i 0) := by
  have hne : batch ≠ [] := by
    intro hb
    rw [hb] at hj
    exact absurd hj (by simp)
  have hk := lm_call_ok_keep_false cfg tok u w batch out sec fin h hne
  obtain ⟨acc, hl, ho1, ho2, ho3, ho4⟩ := lm_call_ok_eq cfg tok u w batch out sec fin hk h
  obtain ⟨r, hp, h1, h2, h3, h4⟩ := lmLoop_get cfg tok u w hk batch 0 none acc hl j hj
  rw [Nat.zero_add] at hp
  obtain ⟨hlab, hin⟩ := lmProcess1_mlm_ok cfg tok (u j) (w j) _ r hmlm hp
  have hmtm : mtmEnabled cfg = true := by
    simp [mtmEnabled, hq, hq0]
  have hcond : (mtmEnabled cfg && cfg.apply_random_words) = true := by
    rw [hmtm, harw]
    rfl
  refine ⟨r.2.1, ?_, ?_, ?_⟩
  · rw [ho1]
    exact h1
  · intro hlt
    have hbit : lmRandomBit cfg (u j) (lmSpecial tok
        (batch.get ⟨j, hj⟩).fields.special_tokens_mask
        (batch.get ⟨j, hj⟩).fields.input_ids) i = true := by
      unfold lmRandomBit
      rw [hmask, hrep]
      simp [hlt]
    have hval : r.2.1.getD i 0 = w j i := by
      rw [hin, hcond, if_pos rfl, getD_range_map _ _ _ _ hi, hbit, if_pos rfl]
    refine ⟨hval, ?_, ?_⟩
    · rw [hval]
      exact (hw j i).1
    · rw [hval]
      exact (hw j i).2
  · intro hlt
    have hbit : lmRandomBit cfg (u j) (lmSpecial tok
        (batch.get ⟨j, hj⟩).fields.special_tokens_mask
        (batch.get ⟨j, hj⟩).fields.input_ids) i = false := by
      unfold lmRandomBit
      simp [hlt]
    rw [hin, hcond, if_pos rfl, getD_range_map _ _ _ _ hi, hbit,
      if_neg Bool.false_ne_true, hmtm, if_pos rfl, getD_range_map _ _ _ _ hi,
      hrep, if_neg Bool.false_ne_true]

/-- Concrete instance of claim C9's theorem: the single masked, unreplaced
position draws coin 0 < 1/2 and is overwritten with the sampled word 7. -/
theorem lm_random_word_replacement_witness :
    ∃ row, ([[7]] : List (List Int)).get? 0 = some row ∧
      (stagedU 0 2 0 < mkRat 1 2 → row.getD 0 0 = (7 : Int) ∧
        0 ≤ row.getD 0 0 ∧ row.getD 0 0 < ((10 : ℕ) : Int)) ∧
      (¬ stagedU 0 2 0 < mkRat 1 2 → row.getD 0 0 = (5 : Int)) :=
  lm_random_word_replacement ⟨true, 1, -100, some (mkRat 1 2), true, false⟩ witTok stagedU
    (constW 7) [.plain ⟨[5], [1], none, none⟩] ⟨[[7]], [[1]], [[5]], none⟩ none
    [.plain ⟨[7], [1], none, some [5]⟩] (mkRat 1 2) rfl rfl (by decide) rfl
    (fun e i => ⟨by norm_num [constW], by norm_num [constW, witTok]⟩)
    rfl 0 (by decide) 0 (by decide) (by decide) (by decide)

/-- Claim C10: the language-modeling collator mutates the caller's examples:
after a successful call the example's mapping has its special-tokens entry
removed, its input ids equal to the corrupted output row, and a labels entry
inserted; an example that carried no labels entry no longer equals what was
passed in. -/
theorem lm_mutates_examples (cfg : LMConfig) (tok : MLMTokenizer)
    (u : ℕ → ℕ → ℕ → ℚ) (w : ℕ → ℕ → Int) (batch : List LMExample)
    (out : LMOutput) (sec : Option (List (String × List (List Int)))) (fin : List LMExample)
    (h : dataCollatorForLanguageModeling cfg tok u w batch = .ok (out, sec, fin))
    (j : ℕ) (hj : j < batch.length) :
    ∃ g : LMFields, fin.get? j = some ((batch.get ⟨j, hj⟩).withFields g) ∧
      g.special_tokens_mask = none ∧
      some g.input_ids = out.input_ids.get? j ∧
      g.labels = out.labels.get? j ∧
      ((batch.get ⟨j, hj⟩).fields.labels = none →
        (batch.get ⟨j, hj⟩).withFields g ≠ batch.get ⟨j, hj⟩) := by
  have hne : batch ≠ [] := by
    intro hb
    rw [hb] at hj
    exact absurd hj (by simp)
  have hk := lm_call_ok_keep_false cfg tok u w batch out sec fin h hne
  obtain ⟨acc, hl, ho1, ho2, ho3, ho4⟩ := lm_call_ok_eq cfg tok u w batch out sec fin hk h
  obtain ⟨r, hp, h1, h2, h3, h4⟩ := lmLoop_get cfg tok u w hk batch 0 none acc hl j hj
  obtain ⟨hg1, hg2, hg3, hg4⟩ := lmProcess1_shape cfg tok _ _ _ r hp
  refine ⟨r.1, ?_, hg1, ?_, ?_, ?_⟩
  · rw [ho4]
    exact h4
  · rw [ho1, h1, hg2]
  · rw [ho3, h3, hg3]
  · intro hn heq
    have hfe := congrArg LMExample.fields heq
    rw [LMExample.fields_withFields] at hfe
    have hnone : r.1.labels = none := by rw [hfe, hn]
    rw [hg3] at hnone
    exact Option.noConfusion hnone

/-- Concrete instance of claim C10's theorem: the single example comes back
with its input ids overwritten by mask tokens and a labels entry inserted,
so it no longer equals the example passed in. -/
theorem lm_mutates_examples_witness :
    ∃ g : LMFields,
      ([LMExample.plain ⟨[103, 103], [1, 1], none, some [5, 6]⟩] : List LMExample).get? 0 =
        some ((LMExample.plain ⟨[5, 6], [1, 1], none, none⟩).withFields g) ∧
      g.special_tokens_mask = none ∧
      some g.input_ids = ([[103, 103]] : List (List Int)).get? 0 ∧
      g.labels = ([[5, 6]] : List (List Int)).get? 0 ∧
      ((LMExample.plain ⟨[5, 6], [1, 1], none, none⟩).fields.labels = none →
        (LMExample.plain ⟨[5, 6], [1, 1], none, none⟩).withFields g ≠
          LMExample.plain ⟨[5, 6], [1, 1], none, none⟩) :=
  lm_mutates_examples (fullMaskCfg (-100)) witTok constHalf (constW 0)
    [.plain ⟨[5, 6], [1, 1], none, none⟩] ⟨[[103, 103]], [[1, 1]], [[5, 6]], none⟩ none
    [.plain ⟨[103, 103], [1, 1], none, some [5, 6]⟩] rfl 0 (by decide)
